import Mathlib

/-!
Verification of the core of `moshee/go-4chan-api` (file `src/api/api.go`):
the global request-rate gate (`get`), the incremental thread-synchronization
loop in `(*Thread).Update`, and the JSON-to-native glue (`ParseThread`,
`getThread`, `getDecode`, `GetCatalog`).

Shallow embedding conventions:
* Go slices become `List`, Go `int`/`int64` become `Nat`/`Int` (list lengths
  and the loop counters stay far below any machine bound, so overflow is
  irrelevant).
* A Go call that never returns — a runtime panic (index out of range,
  nil-pointer dereference) or a permanent block (re-locking a held
  non-reentrant `sync.Mutex`) — is modelled as `Option.none`.
* Instants are `Nat` time units; the single time unit is one second, so the
  `time.After(1 * time.Second)` cooldown arms an expiry `now + 1` and the
  `time.After(UpdateCooldown)` cooldown arms `now + UpdateCooldown` with
  `UpdateCooldown` measured in seconds.
-/

namespace ChanApi

/-- Uploaded-file metadata (`File` in api.go).  Only the fields written by
`json_to_native` that the modelled operations can reach are carried;
the remaining source fields (dimensions, flags, MD5) are payload that no
modelled operation ever reads. -/
structure File where
  Id : Int
  Name : String
  Ext : String
  Size : Int
  deriving DecidableEq, Repr

/-- A post (`Post` in api.go).  `Id` is the post number (`int64` in Go);
the reconciliation loop in `(*Thread).Update` compares posts only by `Id`.
The remaining source fields (timestamps, poster info, flags, the `Thread`
back-pointer) are payload never read by the modelled operations and are
represented by the carried `Name`/`Subject`/`Comment`/`File` sample. -/
structure Post where
  Id : Int
  Name : String
  Subject : String
  Comment : String
  File : Option File
  deriving DecidableEq, Repr

/-- Direct mapping of the API JSON (`jsonPost` in api.go), restricted to the
fields `json_to_native` copies into the modelled `Post` fields.  `No` is the
post number; `No = 0` marks the slot `ParseThread` treats as the OP. -/
structure jsonPost where
  No : Int
  Name : String
  Sub : String
  Com : String
  Tim : Int
  FileName : String
  Ext : String
  Fsize : Int
  deriving DecidableEq, Repr

/-- A thread (`Thread` in api.go).  The Go `OP *Post` pointer becomes
`Option Post` (`none` = nil).  `date_recieved` and `cooldown` are the timing
state modelled separately in `UpdateState`. -/
structure Thread where
  Posts : List Post
  OP : Option Post
  Board : String
  deriving DecidableEq, Repr

/-- `json_to_native` from api.go, restricted to the modelled fields: the
`File` is attached exactly when `len(v.FileName) > 0`. -/
def json_to_native (v : jsonPost) : Post :=
  ⟨v.No, v.Name, v.Sub, v.Com,
    if v.FileName.length > 0 then some ⟨v.Tim, v.FileName, v.Ext, v.Fsize⟩ else none⟩

/-- Convenience: a post whose payload fields are empty, identified by `Id`. -/
def mkP (i : Int) : Post := ⟨i, "", "", "", none⟩

/-- The ordering invariant of the spec: post ids strictly increase along the
list (which also makes them duplicate-free). -/
def IdsIncreasing (l : List Post) : Prop :=
  l.Pairwise (fun p q => p.Id < q.Id)

instance (l : List Post) : Decidable (IdsIncreasing l) :=
  List.instDecidablePairwise l

/-- Number of elements of `old` whose id does not occur in `new`:
the posts the spec calls removed/deleted. -/
def removedCount (old new : List Post) : Nat :=
  (old.filter (fun x => decide (x.Id ∉ new.map Post.Id))).length

/-- Number of elements of `new` whose id does not occur in `old`:
the posts the spec calls inserted/appended. -/
def freshCount (old new : List Post) : Nat :=
  (new.filter (fun y => decide (y.Id ∉ old.map Post.Id))).length

/-!
The two-pointer reconciliation loop of `(*Thread).Update` (api.go:410-420):

    for a, b = 0, 0; a < len(self.Posts); a, b = a+1, b+1 {
        if self.Posts[a].Id == thread.Posts[b].Id {
            continue
        }
        b--
        deleted_posts++
    }
    new_posts = len(thread.Posts) - b

`updateScan` is the loop verbatim: `a` walks `old` structurally, `b` indexes
`new`; the net effect of `b--; b++` on a mismatch is that `b` stays put.
The access `thread.Posts[b]` is unguarded in Go, so `b ≥ len(new)` is an
index-out-of-range panic, modelled by `none`.  The result is the final
`(b, deleted_posts)`. -/
def updateScan (new : List Post) : List Post → Nat → Nat → Option (Nat × Nat)
  | [], b, deleted => some (b, deleted)
  | p :: rest, b, deleted =>
    match new[b]? with
    | none => none
    | some q =>
      if p.Id = q.Id then updateScan new rest (b + 1) deleted
      else updateScan new rest b (deleted + 1)

/-- The reconciliation result of `(*Thread).Update`: the pair
`(new_posts, deleted_posts)` with `new_posts = len(new) - b` (api.go:420).
`b ≤ len(new)` always holds on a successful scan (see `updateScan_le`), so
the Go `int` subtraction agrees with the `Nat` subtraction used here. -/
def updateCounts (old new : List Post) : Option (Nat × Nat) :=
  match updateScan new old 0 0 with
  | none => none
  | some (b, deleted) => some (new.length - b, deleted)

/-- Structural reformulation of `updateScan`: the old list against the suffix
of `new` starting at index `b`; returns `(number of matches, deleted)`. -/
def scanStr : List Post → List Post → Option (Nat × Nat)
  | [], _ => some (0, 0)
  | _ :: _, [] => none
  | p :: old, q :: ns =>
    if p.Id = q.Id then (scanStr old ns).map (fun md => (md.1 + 1, md.2))
    else (scanStr old (q :: ns)).map (fun md => (md.1, md.2 + 1))

theorem updateScan_eq_scanStr (new : List Post) :
    ∀ (old : List Post) (b d : Nat),
      updateScan new old b d =
        (scanStr old (new.drop b)).map (fun md => (b + md.1, d + md.2)) := by
  intro old
  induction old with
  | nil => intro b d; simp [updateScan, scanStr]
  | cons p rest ih =>
    intro b d
    rw [updateScan]
    cases hb : new[b]? with
    | none =>
      have hlen : new.length ≤ b := by
        simpa using List.getElem?_eq_none_iff.mp hb
      have hdrop : new.drop b = [] := List.drop_eq_nil_of_le hlen
      simp [hdrop, scanStr]
    | some q =>
      have hblt : b < new.length := by
        by_contra hcon
        have : new[b]? = none := List.getElem?_eq_none_iff.mpr (Nat.le_of_not_lt hcon)
        simp [this] at hb
      have hdrop : new.drop b = q :: new.drop (b + 1) := by
        rw [List.drop_eq_getElem_cons hblt]
        have : new[b] = q := by
          have := List.getElem?_eq_getElem hblt
          rw [hb] at this
          exact (Option.some.injEq _ _).mp this.symm
        rw [this]
      change (if p.Id = q.Id then updateScan new rest (b + 1) d
              else updateScan new rest b (d + 1)) =
          (scanStr (p :: rest) (new.drop b)).map (fun md => (b + md.1, d + md.2))
      by_cases hpq : p.Id = q.Id
      · rw [if_pos hpq, ih (b + 1) d, hdrop, scanStr, if_pos hpq]
        cases scanStr rest (new.drop (b + 1)) with
        | none => simp
        | some md => simp; omega
      · rw [if_neg hpq, ih b (d + 1), hdrop, scanStr, if_neg hpq]
        rw [← hdrop]
        cases scanStr rest (new.drop b) with
        | none => simp
        | some md => simp; omega

/-- On a successful scan the final value of `b` never exceeds `len(new)`:
the Go `int` subtraction `len(thread.Posts) - b` in api.go:420 is therefore
the truncated `Nat` subtraction used by `updateCounts`. -/
theorem updateScan_le (new : List Post) :
    ∀ (old : List Post) (b d b' d' : Nat), b ≤ new.length →
      updateScan new old b d = some (b', d') → b' ≤ new.length := by
  intro old
  induction old with
  | nil =>
    intro b d b' d' hb h
    rw [updateScan] at h
    cases h
    exact hb
  | cons p rest ih =>
    intro b d b' d' hb h
    rw [updateScan] at h
    cases hq : new[b]? with
    | none => rw [hq] at h; exact absurd h (by simp)
    | some q =>
      rw [hq] at h
      change (if p.Id = q.Id then updateScan new rest (b + 1) d
              else updateScan new rest b (d + 1)) = some (b', d') at h
      have hblt : b < new.length := by
        by_contra hcon
        have : new[b]? = none := List.getElem?_eq_none_iff.mpr (Nat.le_of_not_lt hcon)
        simp [this] at hq
      by_cases hpq : p.Id = q.Id
      · rw [if_pos hpq] at h
        exact ih (b + 1) d b' d' hblt h
      · rw [if_neg hpq] at h
        exact ih b (d + 1) b' d' hb h

/-- If the head `p` of the old list differs from the head `q` of the new
list, then under the ordering invariant and the survivors-then-fresh split,
`p`'s id occurs nowhere in the new list: `p` is a removed post. -/
theorem head_min_not_mem (p q : Post) (old' no fr : List Post)
    (hold : IdsIncreasing (p :: old'))
    (hno : ∀ y ∈ no, y.Id ∈ (p :: old').map Post.Id)
    (hfr : ∀ y ∈ fr, y.Id ∉ (p :: old').map Post.Id)
    (hnf : IdsIncreasing (no ++ fr))
    (hq : (no ++ fr).head? = some q)
    (hne : p.Id ≠ q.Id) :
    p.Id ∉ (no ++ fr).map Post.Id := by
  intro hmem
  rw [List.map_append, List.mem_append] at hmem
  rcases hmem with hmem | hmem
  · obtain ⟨y, hy, hyid⟩ := List.mem_map.mp hmem
    cases no with
    | nil => exact absurd hy (List.not_mem_nil y)
    | cons q0 no' =>
      have hq0 : q0 = q := by
        rw [List.cons_append] at hq
        exact Option.some.inj (by simpa using hq)
      rcases List.mem_cons.mp hy with rfl | hy'
      · exact hne (by rw [← hyid, hq0])
      · have hlt : q0.Id < y.Id := by
          have hpc := (List.pairwise_cons.mp (by
            rw [List.cons_append] at hnf; exact hnf)).1
          exact hpc y (List.mem_append_left fr hy')
        obtain ⟨z, hz, hzid⟩ := List.mem_map.mp (hno q0 (List.mem_cons_self q0 no'))
        rcases List.mem_cons.mp hz with rfl | hz'
        · exact hne (by rw [hzid, hq0])
        · have hpz : p.Id < z.Id := (List.pairwise_cons.mp hold).1 z hz'
          omega
  · obtain ⟨y, hy, hyid⟩ := List.mem_map.mp hmem
    exact hfr y hy (by
      rw [hyid]
      exact List.mem_map.mpr ⟨p, List.mem_cons_self p old', rfl⟩)

/-- Dropping a head post whose id no element of `l` shares does not change
the removed-filter. -/
theorem filter_ids_congr (l : List Post) (q : Post) (ns : List Post)
    (h : ∀ x ∈ l, x.Id ≠ q.Id) :
    l.filter (fun x => decide (x.Id ∉ (q :: ns).map Post.Id)) =
      l.filter (fun x => decide (x.Id ∉ ns.map Post.Id)) := by
  apply List.filter_congr
  intro x hx
  apply decide_eq_decide.mpr
  constructor
  · intro hnot hm
    exact hnot (by rw [List.map_cons]; exact List.mem_cons_of_mem q.Id hm)
  · intro hnot hm
    rw [List.map_cons] at hm
    rcases List.mem_cons.mp hm with he | hm'
    · exact h x hx he
    · exact hnot hm'

/-- A head post absent from the new list counts as one removal. -/
theorem removedCount_cons_not_mem (p : Post) (l ns : List Post)
    (hp : p.Id ∉ ns.map Post.Id) :
    removedCount (p :: l) ns = removedCount l ns + 1 := by
  simp only [removedCount, List.filter_cons, decide_eq_true hp, if_true, List.length_cons]

/-- A head post present in the new list does not count as a removal. -/
theorem removedCount_cons_mem (p : Post) (l ns : List Post)
    (hp : p.Id ∈ ns.map Post.Id) :
    removedCount (p :: l) ns = removedCount l ns := by
  simp only [removedCount, List.filter_cons, decide_eq_false (not_not_intro hp),
    Bool.false_eq_true, if_false]

/-- Dropping the head of the new list does not change the removed-count when
no old post shares its id. -/
theorem removedCount_cons_ids (l : List Post) (q : Post) (ns : List Post)
    (h : ∀ x ∈ l, x.Id ≠ q.Id) :
    removedCount l (q :: ns) = removedCount l ns := by
  rw [removedCount, removedCount, filter_ids_congr l q ns h]

/-- The step of `scanStr_spec` in which the head of the old list has been
removed upstream: its id occurs nowhere in the new list, the loop counts one
deletion and retries the same new head against the next old post.  The
induction hypothesis for the old tail is taken as an argument so that both
call sites of the main induction can share this step. -/
theorem scanStr_spec_mismatch (p : Post) (old' no fr : List Post)
    (ih : ∀ (no fr : List Post),
      IdsIncreasing old' → IdsIncreasing (no ++ fr) →
      (∀ y ∈ no, y.Id ∈ old'.map Post.Id) →
      (∀ y ∈ fr, y.Id ∉ old'.map Post.Id) →
      (fr ≠ [] ∨ ∀ x ∈ old', x.Id ∉ (no ++ fr).map Post.Id →
          ∃ z ∈ old', x.Id < z.Id ∧ z.Id ∈ (no ++ fr).map Post.Id) →
      scanStr old' (no ++ fr) = some (no.length, removedCount old' (no ++ fr)))
    (hold : IdsIncreasing (p :: old'))
    (hnf : IdsIncreasing (no ++ fr))
    (hno : ∀ y ∈ no, y.Id ∈ (p :: old').map Post.Id)
    (hfr : ∀ y ∈ fr, y.Id ∉ (p :: old').map Post.Id)
    (hside : fr ≠ [] ∨ ∀ x ∈ p :: old', x.Id ∉ (no ++ fr).map Post.Id →
        ∃ z ∈ p :: old', x.Id < z.Id ∧ z.Id ∈ (no ++ fr).map Post.Id)
    (hp : p.Id ∉ (no ++ fr).map Post.Id) :
    scanStr (p :: old') (no ++ fr) =
      some (no.length, removedCount (p :: old') (no ++ fr)) := by
  have hold' : IdsIncreasing old' := (List.pairwise_cons.mp hold).2
  have hno' : ∀ y ∈ no, y.Id ∈ old'.map Post.Id := by
    intro y hy
    obtain ⟨z, hz, hzid⟩ := List.mem_map.mp (hno y hy)
    rcases List.mem_cons.mp hz with rfl | hz'
    · exact absurd (by
        rw [hzid]
        exact List.mem_map.mpr ⟨y, List.mem_append_left fr hy, rfl⟩) hp
    · exact List.mem_map.mpr ⟨z, hz', hzid⟩
  have hfr' : ∀ y ∈ fr, y.Id ∉ old'.map Post.Id := by
    intro y hy hmem
    obtain ⟨z, hz, hzid⟩ := List.mem_map.mp hmem
    exact hfr y hy (List.mem_map.mpr ⟨z, List.mem_cons_of_mem p hz, hzid⟩)
  have hside' : fr ≠ [] ∨ ∀ x ∈ old', x.Id ∉ (no ++ fr).map Post.Id →
      ∃ z ∈ old', x.Id < z.Id ∧ z.Id ∈ (no ++ fr).map Post.Id := by
    rcases hside with h | h
    · exact Or.inl h
    · refine Or.inr fun x hx hxmem => ?_
      obtain ⟨z, hz, hxz, hzmem⟩ := h x (List.mem_cons_of_mem p hx) hxmem
      rcases List.mem_cons.mp hz with rfl | hz'
      · exact absurd hzmem hp
      · exact ⟨z, hz', hxz, hzmem⟩
  have hres := ih no fr hold' hnf hno' hfr' hside'
  cases hns : no ++ fr with
  | nil =>
    exfalso
    rcases hside with h | h
    · exact h (List.append_eq_nil.mp hns).2
    · obtain ⟨z, _, _, hzmem⟩ := h p (List.mem_cons_self p old') (by rw [hns]; simp)
      rw [hns] at hzmem
      simp at hzmem
  | cons q ns' =>
    have hpq : p.Id ≠ q.Id := by
      intro he
      exact hp (by rw [hns]; exact List.mem_map.mpr ⟨q, List.mem_cons_self q ns', he.symm⟩)
    rw [hns] at hres hp
    have hstep : scanStr (p :: old') (q :: ns') =
        (scanStr old' (q :: ns')).map (fun md => (md.1, md.2 + 1)) := by
      rw [scanStr, if_neg hpq]
    rw [hstep, hres, removedCount_cons_not_mem p old' (q :: ns') hp]
    rfl

/-- Reconciliation correctness for `scanStr`: if old and new both satisfy
the ordering invariant, every element of `no` survives (its id occurs in
old), every element of `fr` is fresh (its id does not occur in old), and the
scan stays in bounds (some fresh element exists, or every removed old post
precedes some surviving old post), then the scan matches exactly the `no`
posts and deletes exactly the removed posts. -/
theorem scanStr_spec :
    ∀ (old no fr : List Post),
      IdsIncreasing old → IdsIncreasing (no ++ fr) →
      (∀ y ∈ no, y.Id ∈ old.map Post.Id) →
      (∀ y ∈ fr, y.Id ∉ old.map Post.Id) →
      (fr ≠ [] ∨ ∀ x ∈ old, x.Id ∉ (no ++ fr).map Post.Id →
          ∃ z ∈ old, x.Id < z.Id ∧ z.Id ∈ (no ++ fr).map Post.Id) →
      scanStr old (no ++ fr) = some (no.length, removedCount old (no ++ fr)) := by
  intro old
  induction old with
  | nil =>
    intro no fr _ _ hno _ _
    have hno_nil : no = [] := by
      cases no with
      | nil => rfl
      | cons y ys => exact absurd (hno y (List.mem_cons_self y ys)) (by simp)
    subst hno_nil
    simp [scanStr, removedCount]
  | cons p old' ih =>
    intro no fr hold hnf hno hfr hside
    cases no with
    | nil =>
      have hp : p.Id ∉ ([] ++ fr : List Post).map Post.Id := by
        intro hmem
        obtain ⟨y, hy, hyid⟩ := List.mem_map.mp (by simpa using hmem)
        exact hfr y hy (by
          rw [hyid]
          exact List.mem_map.mpr ⟨p, List.mem_cons_self p old', rfl⟩)
      exact scanStr_spec_mismatch p old' [] fr ih hold hnf hno hfr hside hp
    | cons q no' =>
      by_cases hpq : p.Id = q.Id
      · -- the head survives: the loop matches it and advances both pointers
        have hold' : IdsIncreasing old' := (List.pairwise_cons.mp hold).2
        have hnf0 : IdsIncreasing (q :: (no' ++ fr)) := by
          rw [List.cons_append] at hnf; exact hnf
        have hqlt : ∀ y ∈ no' ++ fr, q.Id < y.Id := (List.pairwise_cons.mp hnf0).1
        have hplt : ∀ z ∈ old', p.Id < z.Id := (List.pairwise_cons.mp hold).1
        have hnf' : IdsIncreasing (no' ++ fr) := (List.pairwise_cons.mp hnf0).2
        have hno' : ∀ y ∈ no', y.Id ∈ old'.map Post.Id := by
          intro y hy
          obtain ⟨z, hz, hzid⟩ := List.mem_map.mp (hno y (List.mem_cons_of_mem q hy))
          rcases List.mem_cons.mp hz with rfl | hz'
          · have := hqlt y (List.mem_append_left fr hy)
            omega
          · exact List.mem_map.mpr ⟨z, hz', hzid⟩
        have hfr' : ∀ y ∈ fr, y.Id ∉ old'.map Post.Id := by
          intro y hy hmem
          obtain ⟨z, hz, hzid⟩ := List.mem_map.mp hmem
          exact hfr y hy (List.mem_map.mpr ⟨z, List.mem_cons_of_mem p hz, hzid⟩)
        have hside' : fr ≠ [] ∨ ∀ x ∈ old', x.Id ∉ (no' ++ fr).map Post.Id →
            ∃ z ∈ old', x.Id < z.Id ∧ z.Id ∈ (no' ++ fr).map Post.Id := by
          rcases hside with h | h
          · exact Or.inl h
          · refine Or.inr fun x hx hxmem => ?_
            have hpx : p.Id < x.Id := hplt x hx
            have hxmem0 : x.Id ∉ ((q :: no') ++ fr).map Post.Id := by
              rw [List.cons_append, List.map_cons]
              intro hm
              rcases List.mem_cons.mp hm with he | hm'
              · omega
              · exact hxmem hm'
            obtain ⟨z, hz, hxz, hzmem⟩ := h x (List.mem_cons_of_mem p hx) hxmem0
            rcases List.mem_cons.mp hz with rfl | hz'
            · omega
            · refine ⟨z, hz', hxz, ?_⟩
              have hpz : p.Id < z.Id := hplt z hz'
              rw [List.cons_append, List.map_cons] at hzmem
              rcases List.mem_cons.mp hzmem with he | hm'
              · omega
              · exact hm'
        have hres := ih no' fr hold' hnf' hno' hfr' hside'
        have hstep : scanStr (p :: old') ((q :: no') ++ fr) =
            (scanStr old' (no' ++ fr)).map (fun md => (md.1 + 1, md.2)) := by
          rw [List.cons_append, scanStr, if_pos hpq]
        rw [hstep, hres]
        have hpmem : p.Id ∈ ((q :: no') ++ fr).map Post.Id := by
          rw [List.cons_append, List.map_cons]
          exact hpq ▸ List.mem_cons_self q.Id _
        have hpred : removedCount (p :: old') ((q :: no') ++ fr) =
            removedCount old' (no' ++ fr) := by
          rw [removedCount_cons_mem p old' _ hpmem, List.cons_append,
            removedCount_cons_ids old' q (no' ++ fr) (by
              intro x hx
              have := hplt x hx
              omega)]
        rw [hpred]
        rfl
      · have hp : p.Id ∉ ((q :: no') ++ fr).map Post.Id :=
          head_min_not_mem p q old' (q :: no') fr hold hno hfr hnf (by simp) hpq
        exact scanStr_spec_mismatch p old' (q :: no') fr ih hold hnf hno hfr hside hp

/-- When the new list splits into survivors followed by fresh posts, the
fresh posts are exactly the posts of the new list absent from the old one. -/
theorem freshCount_split (old no fr : List Post)
    (hno : ∀ y ∈ no, y.Id ∈ old.map Post.Id)
    (hfr : ∀ y ∈ fr, y.Id ∉ old.map Post.Id) :
    freshCount old (no ++ fr) = fr.length := by
  rw [freshCount, List.filter_append]
  have h1 : no.filter (fun y => decide (y.Id ∉ old.map Post.Id)) = [] := by
    rw [List.filter_eq_nil_iff]
    intro a ha
    simpa using hno a ha
  have h2 : fr.filter (fun y => decide (y.Id ∉ old.map Post.Id)) = fr := by
    rw [List.filter_eq_self]
    intro a ha
    simpa using hfr a ha
  rw [h1, h2]
  simp

/-- Claim C1 (amended): for Sequences `old` and `new = no ++ fr` satisfying
the strictly-increasing-id invariant, where the `no` posts all survive from
`old` (their ids occur in `old`) and the `fr` posts are the appended ones
(their ids do not occur in `old`), and provided the scan stays in bounds
(some post was appended, or every removed post of `old` precedes a surviving
one), the two-pointer reconciliation of `(*Thread).Update` returns
`deleted_posts` equal to the number of removed posts and `new_posts` equal
to the number of posts of `new` absent from `old`.  The proviso is forced by
`update_reconcile_counterexample`: without it, the access `thread.Posts[b]`
at api.go:413 goes out of range and the Go code panics instead of
returning. -/
theorem update_reconcile_counts (old no fr : List Post)
    (hold : IdsIncreasing old) (hnew : IdsIncreasing (no ++ fr))
    (hno : ∀ y ∈ no, y.Id ∈ old.map Post.Id)
    (hfr : ∀ y ∈ fr, y.Id ∉ old.map Post.Id)
    (hside : fr ≠ [] ∨ ∀ x ∈ old, x.Id ∉ (no ++ fr).map Post.Id →
        ∃ z ∈ old, x.Id < z.Id ∧ z.Id ∈ (no ++ fr).map Post.Id) :
    updateCounts old (no ++ fr) =
      some (freshCount old (no ++ fr), removedCount old (no ++ fr)) := by
  have hscan := updateScan_eq_scanStr (no ++ fr) old 0 0
  rw [List.drop_zero, scanStr_spec old no fr hold hnew hno hfr hside] at hscan
  rw [updateCounts, hscan]
  simp only [Option.map_some']
  rw [freshCount_split old no fr hno hfr]
  simp only [Nat.zero_add, List.length_append, Nat.add_sub_cancel_left]

/-- Claim C1 (counterexample to the unamended claim): `old = [1, 2]`,
`new = [1]` satisfies the claim's precondition (`2` removed, nothing
appended), and the claim then asserts the reconciliation returns
`(new_posts, deleted_posts) = (0, 1)`; instead the loop indexes
`thread.Posts[1]` on the one-element new list, an out-of-range panic in Go,
modelled by `none`. -/
theorem update_reconcile_counterexample :
    updateCounts [mkP 1, mkP 2] [mkP 1] = none ∧
    updateCounts [mkP 1, mkP 2] [mkP 1] ≠
      some (freshCount [mkP 1, mkP 2] [mkP 1],
        removedCount [mkP 1, mkP 2] [mkP 1]) := by
  constructor
  · rfl
  · decide

/-- Witness for `update_reconcile_counts`: `old = [1, 2, 3]`,
`new = [1, 3] ++ [4]` — post 2 deleted, post 4 appended — yields
`(new_posts, deleted_posts) = (1, 1)`. -/
theorem update_reconcile_counts_witness :
    IdsIncreasing [mkP 1, mkP 2, mkP 3] ∧
    IdsIncreasing ([mkP 1, mkP 3] ++ [mkP 4]) ∧
    updateCounts [mkP 1, mkP 2, mkP 3] ([mkP 1, mkP 3] ++ [mkP 4]) =
      some (1, 1) :=
  ⟨by decide, by decide,
    (update_reconcile_counts [mkP 1, mkP 2, mkP 3] [mkP 1, mkP 3] [mkP 4]
      (by decide) (by decide) (by decide) (by decide) (by decide)).trans
    (by decide)⟩

theorem scanStr_self : ∀ (l : List Post), scanStr l l = some (l.length, 0) := by
  intro l
  induction l with
  | nil => rfl
  | cons p rest ih =>
    rw [scanStr, if_pos rfl, ih]
    rfl

/-- Claim C7: running the reconciliation of `(*Thread).Update` with
`old = new = s` (identical Sequences satisfying the ordering invariant)
yields `(new_posts, deleted_posts) = (0, 0)`. -/
theorem update_idempotent (s : List Post) (_h : IdsIncreasing s) :
    updateCounts s s = some (0, 0) := by
  have hscan := updateScan_eq_scanStr s s 0 0
  rw [List.drop_zero, scanStr_self s] at hscan
  rw [updateCounts, hscan]
  simp

/-- Witness for `update_idempotent` at the Sequence `[1, 5, 9]`. -/
theorem update_idempotent_witness :
    IdsIncreasing [mkP 1, mkP 5, mkP 9] ∧
    updateCounts [mkP 1, mkP 5, mkP 9] [mkP 1, mkP 5, mkP 9] = some (0, 0) :=
  ⟨by decide, update_idempotent [mkP 1, mkP 5, mkP 9] (by decide)⟩

/-- Claim C8: with an empty old Sequence the loop body of the reconciliation
in `(*Thread).Update` never runs and the result is
`(new_posts, deleted_posts) = (n, 0)` for any new Sequence of length n. -/
theorem update_empty_old (new : List Post) :
    updateCounts [] new = some (new.length, 0) := by
  rw [updateCounts, updateScan]
  simp

/-!
The global request gate of `get` (api.go:39-60).  The package-level variable
`cooldown` holds the single-shot timer channel armed by the previous request
(`time.After(1 * time.Second)`); `<-cooldown` blocks until that timer's
expiry instant has passed.  The state is the expiry instant of the armed
timer (`none` before the first request).  `cooldownMutex` serializes the
whole read-wait-issue-arm sequence, so a trace of calls is a fold.  This
models callers that do not already hold `cooldownMutex` — every public
entry point (`GetIndex`, `GetThreads`, `GetThread`, `GetBoards`,
`GetCatalog`); the one caller that does hold it, `(*Thread).Update`,
deadlocks on the re-lock instead (see `ThreadUpdate`).
-/

/-- Blocking on the armed cooldown: a caller arriving at `now` proceeds at
`now` if no timer is armed, otherwise at the later of `now` and the timer's
expiry. -/
def gateWait (g : Option Nat) (now : Nat) : Nat :=
  match g with
  | none => now
  | some e => max now e

/-- One call of `get` that issues its request (the request-building step
succeeded): it waits on the armed cooldown, issues at the grant instant, the
round-trip takes `dur`, and then `cooldown = time.After(1 * time.Second)`
arms a fresh one-second cooldown (api.go:57) — regardless of whether the
round-trip returned an error.  Result: (grant instant, new gate state). -/
def getStep (g : Option Nat) (now dur : Nat) : Nat × Option Nat :=
  let grant := gateWait g now
  (grant, some (grant + dur + 1))

/-- The grant instants of a trace of issuing `get` calls, each call given by
its arrival instant and round-trip duration. -/
def gateGrants (g : Option Nat) : List (Nat × Nat) → List Nat
  | [] => []
  | c :: calls => (getStep g c.1 c.2).1 :: gateGrants (getStep g c.1 c.2).2 calls

theorem gateGrants_head_ge (calls : List (Nat × Nat)) (e y : Nat)
    (h : (gateGrants (some e) calls).head? = some y) : e ≤ y := by
  cases calls with
  | nil => exact absurd h (by simp [gateGrants])
  | cons c cs =>
    have hh : (gateGrants (some e) (c :: cs)).head? = some (max c.1 e) := rfl
    rw [hh] at h
    exact (Option.some.inj h) ▸ Nat.le_max_right c.1 e

/-- Claim C4: for every sequence of outbound requests issued through the
gate (`get`), consecutive granted request instants differ by at least the
fixed global interval of 1 time unit (one second): each call waits on the
previously armed cooldown before issuing and a fresh 1-second cooldown is
armed for it. -/
theorem gate_min_interval (g : Option Nat) (calls : List (Nat × Nat)) :
    List.Chain' (fun s t => s + 1 ≤ t) (gateGrants g calls) := by
  induction calls generalizing g with
  | nil => simp [gateGrants]
  | cons c cs ih =>
    rw [gateGrants]
    apply List.chain'_cons'.mpr
    constructor
    · intro y hy
      rw [Option.mem_def] at hy
      have h2 : (getStep g c.1 c.2).2 = some ((getStep g c.1 c.2).1 + c.2 + 1) := rfl
      rw [h2] at hy
      have := gateGrants_head_ge cs ((getStep g c.1 c.2).1 + c.2 + 1) y hy
      omega
    · exact ih _

/-!
`ParseThread` (api.go:326-348) and `getThread` (api.go:274-290).  The JSON
body of a thread response is modelled as `Option (List jsonPost)`: `none`
stands for a body the decoder rejects (`Decode` returns an error), `some ps`
for a body decoding to the posts array `ps`.
-/

/-- The OP selection of the `ParseThread`/`ParseIndex` loop: each post with
`No == 0` overwrites `thread.OP`, so the last such post wins; `none` if no
post has `No == 0`. -/
def chooseOP (ps : List jsonPost) (posts : List Post) : Option Post :=
  List.foldl (fun acc vp => if vp.1.No = 0 then some vp.2 else acc) none (ps.zip posts)

/-- `ParseThread` from api.go.  On a decode error it returns `(nil, err)` —
modelled `some (Except.error ...)` with no thread.  Otherwise it builds the
posts, selects the OP, and if no post had `No == 0` falls back to
`thread.Posts[0]` (api.go:344): on an empty posts array that access is an
index-out-of-range panic, modelled by `none`. -/
def ParseThread (body : Option (List jsonPost)) (board : String) :
    Option (Except String Thread) :=
  match body with
  | none => some (Except.error ("json decode error"))
  | some ps =>
    match chooseOP ps (ps.map json_to_native) with
    | some p => some (Except.ok ⟨ps.map json_to_native, some p, board⟩)
    | none =>
      match (ps.map json_to_native).head? with
      | none => none
      | some p => some (Except.ok ⟨ps.map json_to_native, some p, board⟩)

/-- The outcome of the network fetch performed by `get` inside `getThread`:
either a transport error from `http.DefaultClient.Do`, or a response body
(which may or may not decode). -/
inductive FetchBody where
  | netErr : FetchBody
  | body : Option (List jsonPost) → FetchBody
  deriving DecidableEq, Repr

/-- Result of a `getThread` call: the returned value (`none` models a
runtime panic — the call never returns), the global gate state after the
embedded `get` call, and the instant the call returned. -/
structure GetThreadResult where
  res : Option (Except String Thread)
  gate : Option Nat
  done : Nat
  deriving Repr

/-- `getThread` from api.go, for a caller that does **not** hold
`cooldownMutex` — the deadlock-free path reached through `GetThread`
(api.go:270-272).  (`(*Thread).Update` also calls `getThread`, but while
holding the mutex, so that call blocks forever inside `get` — see
`ThreadUpdate`.)  The embedded `get` call waits on the global cooldown,
issues at the grant instant and re-arms the one-second cooldown regardless
of the response error (api.go:57).  On a transport error `getThread` returns
`(nil, err)` (api.go:281-283).  Otherwise it parses the body;
`thread.date_recieved = time.Now()` (api.go:287) runs *before* the parse
error is checked, so when `ParseThread` returned `(nil, err)` this
assignment dereferences a nil `*Thread` — a runtime panic, modelled by
`res := none` — and a panic inside `ParseThread` itself propagates the same
way. -/
def getThread (g : Option Nat) (now dur : Nat) (fetch : FetchBody)
    (board : String) : GetThreadResult :=
  let grant := gateWait g now
  let gafter := some (grant + dur + 1)
  let done := grant + dur
  match fetch with
  | FetchBody.netErr => ⟨some (Except.error ("transport error")), gafter, done⟩
  | FetchBody.body b =>
    match ParseThread b board with
    | none => ⟨none, gafter, done⟩
    | some (Except.error _) => ⟨none, gafter, done⟩
    | some (Except.ok t) => ⟨some (Except.ok t), gafter, done⟩

/-- The state a call to `(*Thread).Update` reads and would write: the
mirror's posts (`self.Posts`), the per-thread cooldown expiry
(`self.cooldown`), the global gate expiry (package variable `cooldown`),
and the package variable `UpdateCooldown` in seconds. -/
structure UpdateState where
  posts : List Post
  tcd : Option Nat
  gate : Option Nat
  ucd : Nat
  deriving DecidableEq, Repr

/-- The outcome of one `(*Thread).Update` call: `ret = none` models a call
that never returns (a runtime panic or a permanent block), otherwise
`ret = some (new_posts, deleted_posts, err)`; `state` is the state the call
leaves behind. -/
structure UpdateOutcome where
  ret : Option (Nat × Nat × Option String)
  state : UpdateState
  deriving DecidableEq, Repr

/-- `(*Thread).Update` (api.go:395-423).  In source order the call:
locks the package-level `cooldownMutex` (api.go:396); waits on
`self.cooldown` (api.go:397-399); then calls `getThread` (api.go:401) while
still holding the mutex — and `get` re-locks the same `cooldownMutex` at
api.go:41.  A Go `sync.Mutex` is not reentrant, so this second `Lock` blocks
forever: **every** `Update` call deadlocks before building a request, before
the global cooldown is re-armed (api.go:57), before the clamp of
`UpdateCooldown` (api.go:402-404), before `self.cooldown` is armed
(api.go:405), before the error check (api.go:407-409) and before the
reconciliation loop (api.go:410-421).  The call therefore never returns and
mutates none of the modelled state (the receive from `self.cooldown` only
consumes the single-shot channel's value; the field itself is unchanged) —
and, since it hangs holding the mutex, it also wedges every later `get`
caller process-wide.  The fetch-outcome, duration and board arguments are
kept to document what the call receives; none of them is ever used. -/
def ThreadUpdate (s : UpdateState) (_now _dur : Nat) (_fetch : FetchBody)
    (_board : String) : UpdateOutcome :=
  ⟨none, ⟨s.posts, s.tcd, s.gate, s.ucd⟩⟩

/-- Claim C2 (showing the code violates it): with a non-empty old Sequence
and an empty fetched Sequence the claim asserts `(*Thread).Update` returns
`(0, m)` without any out-of-range access.  Instead: the reconciliation loop
has no empty-new special case — it indexes `thread.Posts[0]` on the empty
slice, an out-of-range panic (first conjunct: `updateCounts` is `none`) —
and an actual `Update` call never returns anything at all (second conjunct):
it deadlocks at api.go:41 before even fetching (see `ThreadUpdate`), and
even on the deadlock-free `GetThread` path an empty posts array already
panics inside `ParseThread`, whose OP fallback indexes `Posts[0]`
(api.go:344). -/
theorem update_empty_new_panics :
    updateCounts [mkP 1] [] = none ∧
    (ThreadUpdate ⟨[mkP 1], none, none, 15⟩ 0 1
      (FetchBody.body (some [])) "a").ret = none :=
  ⟨rfl, rfl⟩

/-- Claim C3 (showing the code violates it): the claim asserts that a fetch
or parse error makes `Update` return that error with counts `(0, 0)` and
`Thread.Posts` unchanged, never fatally.  In fact `Update` never returns
any error: every call deadlocks at api.go:41 before the fetch is even
issued (see `ThreadUpdate`), so `ret = none` and the posts are left behind
unchanged only because nothing ran.  And the error-propagation path is
broken independently of the deadlock: on the deadlock-free `GetThread`
path, a parse error makes `ParseThread` return a nil thread with the error,
and `getThread` writes `thread.date_recieved = time.Now()` (api.go:287)
through that nil pointer *before* checking the error — a nil-pointer panic,
fatal to the process (see `getThread`, whose `res = none` models it). -/
theorem update_parse_error_panics :
    (ThreadUpdate ⟨[mkP 1], none, none, 15⟩ 0 1
      (FetchBody.body none) "a").ret = none ∧
    (ThreadUpdate ⟨[mkP 1], none, none, 15⟩ 0 1
      (FetchBody.body none) "a").state.posts = [mkP 1] :=
  ⟨rfl, rfl⟩

/-- Claim C5 (showing the code violates it): the claim asserts every
acquisition — every request issued through `get` and every per-thread
acquisition in `(*Thread).Update` — unconditionally advances the relevant
next-allowed instants, even when the request fails.  In fact a call to
`Update` never advances anything: it deadlocks at api.go:41 (see
`ThreadUpdate`) before a request is built, before `get` would re-arm the
global cooldown (api.go:57) and before `self.cooldown` would be re-armed
(api.go:405).  For every state, every fetch outcome and every timing, the
call never returns and both the per-thread and the global next-allowed
instants are left exactly as they were. -/
theorem update_never_advances_cooldowns (s : UpdateState) (now dur : Nat)
    (fetch : FetchBody) (board : String) :
    (ThreadUpdate s now dur fetch board).ret = none ∧
    (ThreadUpdate s now dur fetch board).state.tcd = s.tcd ∧
    (ThreadUpdate s now dur fetch board).state.gate = s.gate :=
  ⟨rfl, rfl, rfl⟩

/-- Claim C6 (showing the code violates it): the claim asserts that a
below-floor `UpdateCooldown` is silently clamped up to 10 seconds before
being used by `(*Thread).Update`.  In fact the clamp at api.go:402-404 is
dead code: every `Update` call deadlocks at api.go:41 (see `ThreadUpdate`)
before reaching it, so the configured value is never clamped, never written
back and never used — for every state (in particular any `UpdateCooldown`
below the floor, such as 5), the stored value is left untouched and the
call never returns. -/
theorem update_cooldown_never_clamped (s : UpdateState) (now dur : Nat)
    (fetch : FetchBody) (board : String) :
    (ThreadUpdate s now dur fetch board).state.ucd = s.ucd ∧
    (ThreadUpdate s now dur fetch board).ret = none :=
  ⟨rfl, rfl⟩

/-- Claim C10: `ParseThread` is only total for bodies that decode to at
least one post.  A well-formed body whose posts array is empty drives the OP
fallback `thread.Posts[0]` out of range (modelled `none`: a panic, neither a
thread nor an error); every body with at least one post yields a thread with
a non-nil OP. -/
theorem ParseThread_empty_posts_panics (board : String) (ps : List jsonPost) :
    ParseThread (some []) board = none ∧
    (ps ≠ [] → ∃ t, ParseThread (some ps) board = some (Except.ok t) ∧
      t.OP ≠ none) := by
  constructor
  · rfl
  · intro h
    cases ps with
    | nil => exact absurd rfl h
    | cons v vs =>
      cases hop : chooseOP (v :: vs) ((v :: vs).map json_to_native) with
      | some p =>
        refine ⟨⟨(v :: vs).map json_to_native, some p, board⟩, ?_, by simp⟩
        simp only [ParseThread, hop]
      | none =>
        refine ⟨⟨(v :: vs).map json_to_native, some (json_to_native v), board⟩,
          ?_, by simp⟩
        simp only [ParseThread, hop]
        rfl

/-- Witness for `ParseThread_empty_posts_panics` on a one-post body. -/
theorem ParseThread_empty_posts_panics_witness :
    ([(⟨100, "Anonymous", "", "", 0, "", "", 0⟩ : jsonPost)] ≠ []) ∧
    (∃ t, ParseThread (some [⟨100, "Anonymous", "", "", 0, "", "", 0⟩])
        "ck" = some (Except.ok t) ∧ t.OP ≠ none) :=
  ⟨by decide,
    (ParseThread_empty_posts_panics "ck"
      [⟨100, "Anonymous", "", "", 0, "", "", 0⟩]).2 (by decide)⟩

/-!
`getDecode` (api.go:62-69) and `GetCatalog` (api.go:541-566).  The decoded
value is irrelevant to claim C9; only the error path matters, so the decode
is modelled by its error.  `json.Decoder.Decode` (like `json.Unmarshal`)
reports an `InvalidUnmarshalError` whenever its destination is not a
pointer, regardless of the body — modelled by the `destIsPointer` flag.
`GetCatalog` declares `var c catalog` and passes `c`, not `&c`, to
`getDecode` (api.go:545-546), so its decode step always fails.
-/

/-- Error result of `json.NewDecoder(resp.Body).Decode(dest)`: a
non-pointer destination is always rejected; otherwise the body may or may
not decode. -/
def decodeErr (destIsPointer : Bool) (bodyOk : Bool) : Option String :=
  if destIsPointer = false then some ("json: Unmarshal(non-pointer api.catalog)")
  else if bodyOk then none else some ("invalid JSON")

/-- `getDecode` from api.go: propagate a transport error from `get`,
otherwise decode into `dest`. -/
def getDecode (fetchOk : Bool) (destIsPointer : Bool) (bodyOk : Bool) :
    Option String :=
  if fetchOk = false then some ("transport error")
  else decodeErr destIsPointer bodyOk

/-- One page of a `Catalog` (api.go:530-533). -/
structure CatalogPage where
  Page : Int
  Threads : List Thread
  deriving Repr

/-- `GetCatalog` from api.go: rejects an empty board name, then decodes
into the catalog value `c` passed *by value* (`destIsPointer := false`).
The success branch (building the pages from `c`) is unreachable because the
non-pointer destination makes every decode fail. -/
def GetCatalog (board : String) (fetchOk bodyOk : Bool) :
    Option (List CatalogPage) × Option String :=
  if board.length = 0 then (none, some ("api: GetCatalog: No board name given"))
  else
    match getDecode fetchOk false bodyOk with
    | some e => (none, some e)
    | none => (some [], none)

/-- Claim C9: `GetCatalog` never returns a populated Catalog.  For every
board name and every fetch outcome the catalog is nil and the error non-nil;
the empty board name yields the no-board-name error, and any non-empty board
whose fetch succeeds yields the non-pointer decode error. -/
theorem GetCatalog_never_populates (board : String) (fetchOk bodyOk : Bool) :
    (GetCatalog board fetchOk bodyOk).1 = none ∧
    (GetCatalog board fetchOk bodyOk).2.isSome = true ∧
    (board.length = 0 →
      (GetCatalog board fetchOk bodyOk).2 =
        some ("api: GetCatalog: No board name given")) ∧
    (board.length ≠ 0 → fetchOk = true →
      (GetCatalog board fetchOk bodyOk).2 =
        some ("json: Unmarshal(non-pointer api.catalog)")) := by
  by_cases hb : board.length = 0 <;> cases fetchOk <;> cases bodyOk <;>
    simp [GetCatalog, getDecode, decodeErr, hb]

/-- Witness for `GetCatalog_never_populates` at the empty board name and at
board `g`. -/
theorem GetCatalog_never_populates_witness :
    (("".length = 0) ∧
      (GetCatalog "" true true).2 = some ("api: GetCatalog: No board name given")) ∧
    (("g".length ≠ 0) ∧ (GetCatalog "g" true true).1 = none ∧
      (GetCatalog "g" true true).2 =
        some ("json: Unmarshal(non-pointer api.catalog)")) :=
  ⟨⟨by decide, (GetCatalog_never_populates "" true true).2.2.1 (by decide)⟩,
   ⟨by decide, (GetCatalog_never_populates "g" true true).1,
    (GetCatalog_never_populates "g" true true).2.2.2 (by decide) rfl⟩⟩

end ChanApi
